import Mathlib

/-!
Verification of the check-and-fix engine of the `preen` CLI.

Shallow embedding of:
- the data model `Severity` / `Fix` / `Issue` / `CheckResult`
  (src/preen/checks/base.py),
- the check runner `run_checks` (src/preen/checks/runner.py),
- the remediation driver inside the `check` command (src/preen/cli.py).

Python dictionaries are embedded as association lists with Python's
insertion semantics (an assignment to an existing key overwrites the value
in place and keeps the key's original position; a fresh key is appended).
The `apply` callback of a `Fix` is embedded as an externally supplied
effect semantics `sem : Fix → Except ε Unit`; the driver records the
trace of invoked fixes.
-/

namespace Preen

/-- `Severity` enumeration from base.py: ERROR, WARNING, INFO. -/
inductive Severity where
  | error
  | warning
  | info
deriving DecidableEq, Repr

/-- The `.value` of each `Severity` member, as declared in base.py. -/
def Severity.value : Severity → String
  | .error => "error"
  | .warning => "warning"
  | .info => "info"

/-- `Fix` dataclass from base.py. The `apply : Callable[[], None]` field is
a side effect; its behaviour is supplied externally to the driver as an
effect semantics, so the record keeps only the data fields. -/
structure Fix where
  description : String
  diff : String
deriving DecidableEq, Repr

/-- `Fix.preview` returns the diff verbatim. -/
def Fix.preview (f : Fix) : String := f.diff

/-- `Issue` dataclass from base.py. `file : Optional[Path]` is embedded as
an optional string, `line : Optional[int]` as an optional integer. -/
structure Issue where
  check : String
  severity : Severity
  description : String
  file : Option String := none
  line : Option Int := none
  proposed_fix : Option Fix := none
deriving DecidableEq, Repr

/-- Python truthiness of the optional `line` field: `None` and `0` are
falsy, every other integer is truthy. -/
def lineTruthy : Option Int → Bool
  | none => false
  | some l => l != 0

/-- `Issue.__str__` from base.py:
`location = ""`; `if self.file: location = f" in {file}"; if self.line:
location += f":{line}"`; returns
`f"[{severity.value}] {check}: {description}{location}"`. A `Path` object
is always truthy, so `if self.file` tests only for `None`; `if self.line`
uses integer truthiness. -/
def Issue.str (i : Issue) : String :=
  let location :=
    match i.file with
    | none => ""
    | some f =>
        " in " ++ f ++ (if lineTruthy i.line then ":" ++ toString (i.line.getD 0) else "")
  "[" ++ i.severity.value ++ "] " ++ i.check ++ ": " ++ i.description ++ location

/-- `CheckResult` dataclass from base.py. `duration : float` carries no
arithmetic meaning in the engine; it is embedded as a natural number
timestamp-delta placeholder. -/
structure CheckResult where
  check : String
  passed : Bool
  issues : List Issue := []
  duration : Nat := 0
deriving DecidableEq, Repr

/-- `CheckResult.has_errors`: any issue has severity ERROR. -/
def CheckResult.has_errors (r : CheckResult) : Bool :=
  r.issues.any (fun i => i.severity == Severity.error)

/-- `CheckResult.has_warnings`: any issue has severity WARNING. -/
def CheckResult.has_warnings (r : CheckResult) : Bool :=
  r.issues.any (fun i => i.severity == Severity.warning)

/-! ## Check runner (src/preen/checks/runner.py) -/

/-- A check class, as the runner sees it: constructible from the project
root, exposing `name` and `run()`. Both may depend on the root. -/
structure CheckClass (ρ : Type) where
  name : ρ → String
  run : ρ → CheckResult

/-- Python dict assignment `d[k] = v`: overwriting an existing key keeps
its original position; a fresh key is appended at the end. -/
def dictInsert (k : String) (v : CheckResult) :
    List (String × CheckResult) → List (String × CheckResult)
  | [] => [(k, v)]
  | (k', v') :: rest =>
      if k' = k then (k', v) :: rest else (k', v') :: dictInsert k v rest

/-- Python dict lookup `d[k]` (first, hence unique, matching key). -/
def lookupRes (n : String) : List (String × CheckResult) → Option CheckResult
  | [] => none
  | (k, v) :: rest => if k = n then some v else lookupRes n rest

/-- The key list of an embedded dict. -/
def keys (m : List (String × CheckResult)) : List String :=
  m.map Prod.fst

/-- The condition `only and check.name not in only` of runner.py:
`only` blocks a name iff `only` is non-null and non-empty (truthy) and
does not contain the name. -/
def onlyBlocks (only : Option (List String)) (n : String) : Bool :=
  match only with
  | none => false
  | some l => decide (l ≠ []) && decide (n ∉ l)

/-- A check is actually run (not omitted) iff its name is not in `skip`
and not blocked by `only`; skip is tested first in the source. -/
def runsCheck {ρ : Type} (pd : ρ) (skipL : List String) (only : Option (List String))
    (cc : CheckClass ρ) : Bool :=
  decide (cc.name pd ∉ skipL) && !onlyBlocks only (cc.name pd)

/-- The loop body of `run_checks`, threading the results dict. -/
def runChecksAux {ρ : Type} (pd : ρ) (skipL : List String) (only : Option (List String)) :
    List (CheckClass ρ) → List (String × CheckResult) → List (String × CheckResult)
  | [], results => results
  | cc :: rest, results =>
      if cc.name pd ∈ skipL then runChecksAux pd skipL only rest results
      else if onlyBlocks only (cc.name pd) then runChecksAux pd skipL only rest results
      else runChecksAux pd skipL only rest (dictInsert (cc.name pd) (cc.run pd) results)

/-- `run_checks(project_dir, check_classes, skip, only)` from runner.py.
`skip = skip or []` normalises a null skip list to empty. The wall-clock
duration stamped on each result is part of the result value produced by
`CheckClass.run` here (time itself is not modelled). -/
def run_checks {ρ : Type} (pd : ρ) (check_classes : List (CheckClass ρ))
    (skip : Option (List String)) (only : Option (List String)) :
    List (String × CheckResult) :=
  runChecksAux pd (skip.getD []) only check_classes []

/-- Names of the checks that are actually run, in `check_classes` order. -/
def runNames {ρ : Type} (pd : ρ) (skipL : List String) (only : Option (List String))
    (ccs : List (CheckClass ρ)) : List String :=
  (ccs.filter (runsCheck pd skipL only)).map (fun cc => cc.name pd)

/-- Deduplication keeping first occurrences, with an accumulator of names
already present: the key order a Python dict produces. -/
def firstDedupAux (seen : List String) : List String → List String
  | [] => []
  | n :: rest =>
      if n ∈ seen then firstDedupAux seen rest
      else n :: firstDedupAux (n :: seen) rest

/-- The run result of the last check in the list that is actually run and
carries the given name (later checks take precedence), if any. -/
def lastRun {ρ : Type} (pd : ρ) (skipL : List String) (only : Option (List String))
    (n : String) : List (CheckClass ρ) → Option CheckResult
  | [] => none
  | cc :: rest =>
      (lastRun pd skipL only n rest).or
        (if runsCheck pd skipL only cc = true ∧ cc.name pd = n
          then some (cc.run pd) else none)

/-! ## Remediation driver (the `check` command of src/preen/cli.py) -/

/-- The accumulator of the Collect loop in `check`: `total_issues`,
`has_errors` and the `fixable_issues` list. -/
structure CollectState where
  total_issues : Nat
  has_errors : Bool
  fixable_issues : List Issue
deriving DecidableEq, Repr

/-- One iteration of the Collect loop of cli.py: a passed result changes
nothing; a failed result adds its issue count, ORs in its `has_errors`,
and appends its issues that carry a fix (`if issue.proposed_fix:`; a Fix
object is always truthy, so this tests for presence). -/
def collectStep (s : CollectState) (r : CheckResult) : CollectState :=
  if r.passed then s
  else
    { total_issues := s.total_issues + r.issues.length
      has_errors := s.has_errors || r.has_errors
      fixable_issues := s.fixable_issues ++ r.issues.filter (fun i => i.proposed_fix.isSome) }

/-- The whole Collect loop over `results.items()` in insertion order. -/
def collect (results : List (String × CheckResult)) : CollectState :=
  results.foldl (fun s p => collectStep s p.2) ⟨0, false, []⟩

/-- Modelled from the spec (for comparison with `collect`): `total_issues`
= sum of issue counts across ALL results, including passed ones. -/
def specTotalIssues (results : List (String × CheckResult)) : Nat :=
  (results.map (fun p => p.2.issues.length)).sum

/-- Modelled from the spec (for comparison with `collect`): `has_errors`
= OR of every result's `has_errors`, including passed ones. -/
def specHasErrors (results : List (String × CheckResult)) : Bool :=
  results.any (fun p => p.2.has_errors)

/-- Modelled from the spec (for comparison with `collect`): every Issue
with a non-null Fix from every result, including passed ones, in
(check, then issue-within-check) order. -/
def specFixable (results : List (String × CheckResult)) : List Issue :=
  results.flatMap (fun p => p.2.issues.filter (fun i => i.proposed_fix.isSome))

/-- The results with `passed=False`, in mapping order: the ones the
Collect loop of cli.py actually accumulates over. -/
def failedResults (results : List (String × CheckResult)) : List (String × CheckResult) :=
  results.filter (fun p => p.2.passed = false)

/-- The bulk-apply loop: invoke each fix's `apply()` in order, with the
effect of each apply supplied by `sem`. Returns the trace of fixes whose
apply was invoked, and the first raised exception if any; after an
exception the remaining fixes are not attempted (no rollback). -/
def applyAll {ε : Type} (sem : Fix → Except ε Unit) : List Fix → List Fix × Option ε
  | [] => ([], none)
  | f :: rest =>
      match sem f with
      | Except.ok _ =>
          let r := applyAll sem rest
          (f :: r.1, r.2)
      | Except.error e => ([f], some e)

/-- The remediation driver of the `check` command: the Collect loop, the
bulk-apply branch (taken when issues were found, the fixable list is
non-empty and the fix flag is set), and the strict exit decision
`if strict and (total_issues > 0 or has_errors): exit 1`. The interactive
branch is modelled as declined (no fix applied there). Returns the trace
of invoked fixes and either the propagated apply exception or the exit
code; a raised apply exception prevents the exit decision from running. -/
def checkDriver {ε : Type} (sem : Fix → Except ε Unit)
    (results : List (String × CheckResult)) (fixFlag strict : Bool) :
    List Fix × Except ε Nat :=
  let s := collect results
  let fixes := s.fixable_issues.filterMap (fun i => i.proposed_fix)
  let applied :=
    if 0 < s.total_issues ∧ fixes ≠ [] ∧ fixFlag = true then applyAll sem fixes
    else ([], none)
  match applied.2 with
  | some e => (applied.1, Except.error e)
  | none =>
      (applied.1,
        Except.ok (if strict = true ∧ (0 < s.total_issues ∨ s.has_errors = true) then 1 else 0))

/-! ## Concrete fixtures -/

/-- A fix fixture. -/
def fixNewline : Fix := { description := "add newline", diff := "+\n" }

/-- A second fix fixture. -/
def fixSortDeps : Fix := { description := "sort deps", diff := "-b\n+a\n" }

/-- A third fix fixture. -/
def fixBumpPin : Fix := { description := "bump pin", diff := "-1.0\n+2.0\n" }

/-- An ERROR issue with no fix. -/
def issueErrNoFix : Issue :=
  { check := "lint", severity := .error, description := "bad" }

/-- A WARNING issue carrying a fix. -/
def issueWarnFix : Issue :=
  { check := "deps", severity := .warning, description := "stale",
    proposed_fix := some fixNewline }

/-- A second WARNING issue carrying a fix. -/
def issueWarnFix2 : Issue :=
  { check := "deps", severity := .warning, description := "unsorted",
    proposed_fix := some fixSortDeps }

/-- A third WARNING issue carrying a fix. -/
def issueWarnFix3 : Issue :=
  { check := "deps", severity := .warning, description := "old pin",
    proposed_fix := some fixBumpPin }

/-- A passed result that nevertheless carries an ERROR issue. -/
def exPassedWithIssue : List (String × CheckResult) :=
  [("tests", { check := "tests", passed := true, issues := [issueErrNoFix] })]

/-- A passed result that nevertheless carries a fixable issue. -/
def exPassedWithFix : List (String × CheckResult) :=
  [("deps", { check := "deps", passed := true, issues := [issueWarnFix] })]

/-- A failed result with one WARNING-severity fixable issue. -/
def exWarnOnly : List (String × CheckResult) :=
  [("deps", { check := "deps", passed := false, issues := [issueWarnFix] })]

/-- A failed result with one ERROR issue. -/
def exErr : List (String × CheckResult) :=
  [("lint", { check := "lint", passed := false, issues := [issueErrNoFix] })]

/-- A failed result with three fixable WARNING issues. -/
def exThreeFixes : List (String × CheckResult) :=
  [("deps", { check := "deps", passed := false,
              issues := [issueWarnFix, issueWarnFix2, issueWarnFix3] })]

/-- An apply semantics that raises on the second fixture fix and
succeeds on every other fix. -/
def semBoom : Fix → Except String Unit :=
  fun f => if f = fixSortDeps then Except.error "boom" else Except.ok ()

/-- A check class named "dup" whose run passes. -/
def dupA : CheckClass Unit :=
  { name := fun _ => "dup", run := fun _ => { check := "dup", passed := true } }

/-- A second check class also named "dup" whose run fails. -/
def dupB : CheckClass Unit :=
  { name := fun _ => "dup", run := fun _ => { check := "dup", passed := false } }

end Preen

namespace Preen

/-- C6: for every Issue the rendering is "[severity] check: description"
followed by the location suffix governed by the optional fields: with the
concrete fields of the claim the rendering is exactly
"[warning] lint: line too long in a.py:10"; omitting line drops the
":line" part; omitting file drops the whole suffix even when line is set. -/
theorem issue_str_spec :
    (Issue.str { check := "lint", severity := .warning, description := "line too long",
                 file := some "a.py", line := some 10 }
      = "[warning] lint: line too long in a.py:10")
    ∧ (Issue.str { check := "lint", severity := .warning, description := "line too long",
                   file := some "a.py" }
      = "[warning] lint: line too long in a.py")
    ∧ (∀ (chk desc : String) (sev : Severity) (ln : Option Int) (fx : Option Fix),
        Issue.str { check := chk, severity := sev, description := desc,
                    file := none, line := ln, proposed_fix := fx }
          = "[" ++ sev.value ++ "] " ++ chk ++ ": " ++ desc)
    ∧ (∀ (chk desc f : String) (sev : Severity) (fx : Option Fix),
        Issue.str { check := chk, severity := sev, description := desc,
                    file := some f, line := none, proposed_fix := fx }
          = "[" ++ sev.value ++ "] " ++ chk ++ ": " ++ desc ++ " in " ++ f)
    ∧ (∀ (chk desc f : String) (sev : Severity) (l : Int) (fx : Option Fix),
        l ≠ 0 →
        Issue.str { check := chk, severity := sev, description := desc,
                    file := some f, line := some l, proposed_fix := fx }
          = "[" ++ sev.value ++ "] " ++ chk ++ ": " ++ desc
              ++ " in " ++ f ++ ":" ++ toString l) := by
  refine ⟨rfl, rfl, ?_, ?_, ?_⟩
  · intro chk desc sev ln fx
    simp [Issue.str]
  · intro chk desc f sev fx
    simp [Issue.str, lineTruthy, String.append_assoc]
  · intro chk desc f sev l fx hl
    simp [Issue.str, lineTruthy, hl, String.append_assoc]

/-- C6 witness: the general line-bearing rendering at the claim's
concrete fields. -/
theorem issue_str_spec_witness :
    Issue.str { check := "lint", severity := .warning, description := "line too long",
                file := some "a.py", line := some 10 }
      = "[" ++ Severity.value .warning ++ "] " ++ "lint" ++ ": " ++ "line too long"
          ++ " in " ++ "a.py" ++ ":" ++ toString (10 : Int) :=
  issue_str_spec.2.2.2.2 "lint" "line too long" "a.py" .warning 10 none (by decide)

/-- C10: an Issue with a file and line = 0 renders with the " in file"
suffix but no ":0" part, because line presence is tested by truthiness. -/
theorem issue_str_line_zero (chk desc f : String) (sev : Severity) (fx : Option Fix) :
    Issue.str { check := chk, severity := sev, description := desc,
                file := some f, line := some 0, proposed_fix := fx }
      = "[" ++ sev.value ++ "] " ++ chk ++ ": " ++ desc ++ " in " ++ f := by
  simp [Issue.str, lineTruthy, String.append_assoc]

/-- C7: has_errors iff some issue has severity ERROR, has_warnings iff
some issue has severity WARNING, both false on an empty issue list, and
neither depends on the passed flag or the duration. -/
theorem checkresult_error_warning_flags :
    (∀ r : CheckResult,
        (r.has_errors = true ↔ ∃ i ∈ r.issues, i.severity = Severity.error)
        ∧ (r.has_warnings = true ↔ ∃ i ∈ r.issues, i.severity = Severity.warning))
    ∧ (∀ (c : String) (p : Bool) (d : Nat),
        (CheckResult.has_errors { check := c, passed := p, issues := [], duration := d } = false)
        ∧ (CheckResult.has_warnings { check := c, passed := p, issues := [], duration := d } = false))
    ∧ (∀ (r : CheckResult) (p : Bool) (d : Nat),
        CheckResult.has_errors { r with passed := p, duration := d } = r.has_errors
        ∧ CheckResult.has_warnings { r with passed := p, duration := d } = r.has_warnings) := by
  refine ⟨?_, ?_, ?_⟩
  · intro r
    constructor
    · simp [CheckResult.has_errors, List.any_eq_true]
    · simp [CheckResult.has_warnings, List.any_eq_true]
  · intro c p d
    exact ⟨rfl, rfl⟩
  · intro r p d
    exact ⟨rfl, rfl⟩

/-! ### Dictionary lemmas -/

theorem keys_cons (k : String) (v : CheckResult) (m : List (String × CheckResult)) :
    keys ((k, v) :: m) = k :: keys m := rfl

theorem keys_dictInsert (k : String) (v : CheckResult) :
    ∀ m : List (String × CheckResult),
      keys (dictInsert k v m) = if k ∈ keys m then keys m else keys m ++ [k]
  | [] => by simp [dictInsert, keys]
  | (k1, v1) :: rest => by
      by_cases h : k1 = k
      · subst h
        simp [dictInsert, keys]
      · have ih := keys_dictInsert k v rest
        have hstep : dictInsert k v ((k1, v1) :: rest) = (k1, v1) :: dictInsert k v rest := by
          simp [dictInsert, h]
        rw [hstep, keys_cons, ih, keys_cons]
        have hmem : (k ∈ k1 :: keys rest) ↔ k ∈ keys rest := by
          simp [List.mem_cons, Ne.symm h]
        by_cases hk : k ∈ keys rest
        · rw [if_pos hk, if_pos (hmem.mpr hk)]
        · rw [if_neg hk, if_neg (fun hcon => hk (hmem.mp hcon))]
          rfl

theorem mem_keys_dictInsert (k n : String) (v : CheckResult)
    (m : List (String × CheckResult)) :
    n ∈ keys (dictInsert k v m) ↔ n = k ∨ n ∈ keys m := by
  rw [keys_dictInsert]
  by_cases hk : k ∈ keys m
  · rw [if_pos hk]
    constructor
    · exact Or.inr
    · rintro (rfl | h)
      · exact hk
      · exact h
  · rw [if_neg hk]
    simp [List.mem_append, or_comm]

theorem lookupRes_dictInsert (k n : String) (v : CheckResult) :
    ∀ m : List (String × CheckResult),
      lookupRes n (dictInsert k v m) = if k = n then some v else lookupRes n m
  | [] => by simp [dictInsert, lookupRes]
  | (k1, v1) :: rest => by
      by_cases h : k1 = k
      · subst h
        by_cases hn : k1 = n <;> simp [dictInsert, lookupRes, hn]
      · have ih := lookupRes_dictInsert k n v rest
        by_cases hn : k1 = n
        · subst hn
          have hkn : k ≠ k1 := fun hh => h hh.symm
          simp [dictInsert, lookupRes, h, hkn]
        · simp [dictInsert, lookupRes, h, hn, ih]

/-! ### Runner lemmas -/

theorem mem_keys_runChecksAux {ρ : Type} (pd : ρ) (skipL : List String)
    (only : Option (List String)) (n : String) :
    ∀ (ccs : List (CheckClass ρ)) (acc : List (String × CheckResult)),
      (n ∈ keys (runChecksAux pd skipL only ccs acc)
        ↔ (∃ cc ∈ ccs, runsCheck pd skipL only cc = true ∧ cc.name pd = n)
            ∨ n ∈ keys acc)
  | [], acc => by simp [runChecksAux]
  | cc :: rest, acc => by
      by_cases hs : cc.name pd ∈ skipL
      · have hrc : runsCheck pd skipL only cc = false := by
          simp [runsCheck, hs]
        rw [runChecksAux, if_pos hs, mem_keys_runChecksAux pd skipL only n rest acc]
        simp [hrc]
      · by_cases ho : onlyBlocks only (cc.name pd) = true
        · have hrc : runsCheck pd skipL only cc = false := by
            simp [runsCheck, hs, ho]
          rw [runChecksAux, if_neg hs, if_pos ho,
            mem_keys_runChecksAux pd skipL only n rest acc]
          simp [hrc]
        · have hrc : runsCheck pd skipL only cc = true := by
            simp [runsCheck, hs, ho]
          rw [runChecksAux, if_neg hs, if_neg ho,
            mem_keys_runChecksAux pd skipL only n rest _, mem_keys_dictInsert]
          simp only [List.mem_cons, hrc]
          constructor
          · rintro (⟨c, hc, hrun, hname⟩ | (rfl | hacc))
            · exact Or.inl ⟨c, Or.inr hc, hrun, hname⟩
            · exact Or.inl ⟨cc, Or.inl rfl, hrc, rfl⟩
            · exact Or.inr hacc
          · rintro (⟨c, (rfl | hc), hrun, hname⟩ | hacc)
            · exact Or.inr (Or.inl hname.symm)
            · exact Or.inl ⟨c, hc, hrun, hname⟩
            · exact Or.inr (Or.inr hacc)

/-- C3: the key set of run_checks equals the checks' names minus skip,
intersected with only when only is non-empty and non-null; a name in both
skip and only is excluded, and omitted checks leave no entry at all. -/
theorem run_checks_keyset {ρ : Type} (pd : ρ) (ccs : List (CheckClass ρ))
    (skip only : Option (List String)) (n : String) :
    n ∈ keys (run_checks pd ccs skip only)
      ↔ ((∃ cc ∈ ccs, cc.name pd = n) ∧ n ∉ skip.getD []
          ∧ ∀ l, only = some l → l ≠ [] → n ∈ l) := by
  rw [run_checks, mem_keys_runChecksAux]
  simp only [keys, List.map_nil, List.not_mem_nil, or_false]
  constructor
  · rintro ⟨c, hc, hrun, hname⟩
    simp only [runsCheck, Bool.and_eq_true, decide_eq_true_eq,
      Bool.not_eq_true'] at hrun
    rw [hname] at hrun
    refine ⟨⟨c, hc, hname⟩, hrun.1, ?_⟩
    rintro l rfl hne
    have h2 := hrun.2
    simp only [onlyBlocks] at h2
    by_contra hnl
    simp [hne, hnl] at h2
  · rintro ⟨⟨c, hc, hname⟩, hskip, honly⟩
    refine ⟨c, hc, ?_, hname⟩
    simp only [runsCheck, Bool.and_eq_true, decide_eq_true_eq,
      Bool.not_eq_true']
    rw [hname]
    refine ⟨hskip, ?_⟩
    cases honly2 : only with
    | none => simp [onlyBlocks]
    | some l =>
        by_cases hl : l = []
        · simp [onlyBlocks, hl]
        · have hmem := honly l honly2 hl
          simp [onlyBlocks, hl, hmem]

theorem map_or_opt {α β : Type} (f : α → β) (a b : Option α) :
    (a.or b).map f = (a.map f).or (b.map f) := by
  cases a <;> rfl

theorem lookupRes_runChecksAux {ρ : Type} (pd : ρ) (skipL : List String)
    (only : Option (List String)) (n : String) :
    ∀ (ccs : List (CheckClass ρ)) (acc : List (String × CheckResult)),
      lookupRes n (runChecksAux pd skipL only ccs acc)
        = (lastRun pd skipL only n ccs).or (lookupRes n acc)
  | [], acc => by simp [runChecksAux, lastRun]
  | cc :: rest, acc => by
      by_cases hs : cc.name pd ∈ skipL
      · have hrc : runsCheck pd skipL only cc = false := by simp [runsCheck, hs]
        rw [runChecksAux, if_pos hs, lookupRes_runChecksAux pd skipL only n rest acc]
        simp [lastRun, hrc]
      · by_cases ho : onlyBlocks only (cc.name pd) = true
        · have hrc : runsCheck pd skipL only cc = false := by
            simp [runsCheck, hs, ho]
          rw [runChecksAux, if_neg hs, if_pos ho,
            lookupRes_runChecksAux pd skipL only n rest acc]
          simp [lastRun, hrc]
        · have hrc : runsCheck pd skipL only cc = true := by
            simp [runsCheck, hs, ho]
          rw [runChecksAux, if_neg hs, if_neg ho,
            lookupRes_runChecksAux pd skipL only n rest _, lookupRes_dictInsert]
          simp only [lastRun, Option.or_assoc]
          by_cases hn : cc.name pd = n
          · rw [if_pos hn, if_pos ⟨hrc, hn⟩]
            cases lastRun pd skipL only n rest <;> rfl
          · rw [if_neg hn, if_neg (fun hcon => hn hcon.2), Option.none_or]

theorem lastRun_eq_find {ρ : Type} (pd : ρ) (skipL : List String)
    (only : Option (List String)) (n : String) :
    ∀ ccs : List (CheckClass ρ),
      lastRun pd skipL only n ccs
        = ((ccs.filter (runsCheck pd skipL only)).reverse.find?
            (fun cc => cc.name pd == n)).map (fun cc => cc.run pd)
  | [] => rfl
  | cc :: rest => by
      have ih := lastRun_eq_find pd skipL only n rest
      simp only [lastRun]
      by_cases hrc : runsCheck pd skipL only cc = true
      · rw [List.filter_cons_of_pos hrc, List.reverse_cons, List.find?_append,
          map_or_opt, ← ih]
        by_cases hn : cc.name pd = n
        · rw [if_pos ⟨hrc, hn⟩]
          simp [List.find?, hn]
        · rw [if_neg (fun hcon => hn hcon.2)]
          have hb : (cc.name pd == n) = false := by
            simp [hn]
          simp [List.find?, hb]
      · rw [List.filter_cons_of_neg hrc, ← ih, if_neg (fun hcon => hrc hcon.1),
          Option.or_none]

theorem firstDedupAux_congr : ∀ (l s1 s2 : List String),
    (∀ x, x ∈ s1 ↔ x ∈ s2) → firstDedupAux s1 l = firstDedupAux s2 l
  | [], _, _, _ => rfl
  | nm :: rest, s1, s2, h => by
      by_cases hm : nm ∈ s1
      · rw [firstDedupAux, firstDedupAux, if_pos hm, if_pos ((h nm).mp hm)]
        exact firstDedupAux_congr rest s1 s2 h
      · rw [firstDedupAux, firstDedupAux, if_neg hm,
          if_neg (fun hc => hm ((h nm).mpr hc))]
        rw [firstDedupAux_congr rest (nm :: s1) (nm :: s2)
          (by intro x; simp [List.mem_cons, h x])]

theorem keys_runChecksAux {ρ : Type} (pd : ρ) (skipL : List String)
    (only : Option (List String)) :
    ∀ (ccs : List (CheckClass ρ)) (acc : List (String × CheckResult)),
      keys (runChecksAux pd skipL only ccs acc)
        = keys acc ++ firstDedupAux (keys acc) (runNames pd skipL only ccs)
  | [], acc => by simp [runChecksAux, runNames, firstDedupAux]
  | cc :: rest, acc => by
      by_cases hs : cc.name pd ∈ skipL
      · have hrc : runsCheck pd skipL only cc = false := by simp [runsCheck, hs]
        rw [runChecksAux, if_pos hs, keys_runChecksAux pd skipL only rest acc]
        simp [runNames, List.filter_cons, hrc]
      · by_cases ho : onlyBlocks only (cc.name pd) = true
        · have hrc : runsCheck pd skipL only cc = false := by
            simp [runsCheck, hs, ho]
          rw [runChecksAux, if_neg hs, if_pos ho,
            keys_runChecksAux pd skipL only rest acc]
          simp [runNames, List.filter_cons, hrc]
        · have hrc : runsCheck pd skipL only cc = true := by
            simp [runsCheck, hs, ho]
          rw [runChecksAux, if_neg hs, if_neg ho,
            keys_runChecksAux pd skipL only rest _, keys_dictInsert]
          have hrn : runNames pd skipL only (cc :: rest)
              = cc.name pd :: runNames pd skipL only rest := by
            simp [runNames, List.filter_cons, hrc]
          rw [hrn]
          by_cases hmem : cc.name pd ∈ keys acc
          · rw [if_pos hmem]
            simp only [firstDedupAux, if_pos hmem]
          · rw [if_neg hmem]
            simp only [firstDedupAux, if_neg hmem]
            rw [firstDedupAux_congr (runNames pd skipL only rest)
              (keys acc ++ [cc.name pd]) (cc.name pd :: keys acc)
              (by intro x; simp [List.mem_append, List.mem_cons, or_comm])]
            simp [List.append_assoc]

theorem mem_firstDedupAux : ∀ (l seen : List String) (x : String),
    x ∈ firstDedupAux seen l ↔ x ∈ l ∧ x ∉ seen
  | [], seen, x => by simp [firstDedupAux]
  | nm :: rest, seen, x => by
      by_cases hm : nm ∈ seen
      · rw [firstDedupAux, if_pos hm, mem_firstDedupAux rest seen x]
        simp only [List.mem_cons]
        constructor
        · rintro ⟨h1, h2⟩
          exact ⟨Or.inr h1, h2⟩
        · rintro ⟨h1 | h1, h2⟩
          · exact absurd (h1 ▸ hm) h2
          · exact ⟨h1, h2⟩
      · rw [firstDedupAux, if_neg hm]
        simp only [List.mem_cons, mem_firstDedupAux rest (nm :: seen) x]
        constructor
        · rintro (rfl | ⟨h1, h2⟩)
          · exact ⟨Or.inl rfl, hm⟩
          · exact ⟨Or.inr h1, fun hc => h2 (Or.inr hc)⟩
        · rintro ⟨rfl | h1, h2⟩
          · exact Or.inl rfl
          · by_cases hxnm : x = nm
            · exact Or.inl hxnm
            · exact Or.inr ⟨h1, by simp [List.mem_cons, hxnm, h2]⟩

theorem nodup_firstDedupAux : ∀ (l seen : List String), (firstDedupAux seen l).Nodup
  | [], _ => List.nodup_nil
  | nm :: rest, seen => by
      by_cases hm : nm ∈ seen
      · rw [firstDedupAux, if_pos hm]
        exact nodup_firstDedupAux rest seen
      · rw [firstDedupAux, if_neg hm, List.nodup_cons]
        refine ⟨?_, nodup_firstDedupAux rest (nm :: seen)⟩
        rw [mem_firstDedupAux]
        simp

/-- C8: when two (or more) non-omitted checks share a name, the returned
mapping has exactly one entry under that name, holding the result of the
check appearing last among them in check_classes order, and the mapping's
key order is the first-occurrence order of the run checks' names. -/
theorem run_checks_last_write_wins {ρ : Type} (pd : ρ) (ccs : List (CheckClass ρ))
    (skip only : Option (List String)) (n : String)
    (h : n ∈ runNames pd (skip.getD []) only ccs) :
    (keys (run_checks pd ccs skip only)).count n = 1
    ∧ lookupRes n (run_checks pd ccs skip only)
        = ((ccs.filter (runsCheck pd (skip.getD []) only)).reverse.find?
            (fun cc => cc.name pd == n)).map (fun cc => cc.run pd)
    ∧ keys (run_checks pd ccs skip only)
        = firstDedupAux [] (runNames pd (skip.getD []) only ccs) := by
  have hkeys : keys (run_checks pd ccs skip only)
      = firstDedupAux [] (runNames pd (skip.getD []) only ccs) := by
    rw [run_checks, keys_runChecksAux]
    rfl
  refine ⟨?_, ?_, hkeys⟩
  · rw [hkeys]
    exact List.count_eq_one_of_mem (nodup_firstDedupAux _ _)
      ((mem_firstDedupAux _ _ _).mpr ⟨h, by simp⟩)
  · rw [run_checks, lookupRes_runChecksAux, lastRun_eq_find]
    simp [lookupRes]

/-- C8 witness: two checks both named "dup"; the mapping keeps one entry
whose value is the later check's (failed) result. -/
theorem run_checks_last_write_wins_witness :
    lookupRes "dup" (run_checks () [dupA, dupB] none none)
      = some { check := "dup", passed := false } := by
  have h := run_checks_last_write_wins () [dupA, dupB] none none "dup" (by decide)
  exact h.2.1.trans (by decide)

/-! ### Collect-loop lemmas -/

theorem collect_foldl : ∀ (results : List (String × CheckResult)) (init : CollectState),
    (results.foldl (fun s p => collectStep s p.2) init).total_issues
        = init.total_issues
          + ((failedResults results).map (fun p => p.2.issues.length)).sum
    ∧ (results.foldl (fun s p => collectStep s p.2) init).has_errors
        = (init.has_errors || (failedResults results).any (fun p => p.2.has_errors))
    ∧ (results.foldl (fun s p => collectStep s p.2) init).fixable_issues
        = init.fixable_issues
          ++ (failedResults results).flatMap
              (fun p => p.2.issues.filter (fun i => i.proposed_fix.isSome))
  | [], init => by simp [failedResults]
  | p :: rest, init => by
      have hstep : List.foldl (fun s q => collectStep s q.2) init (p :: rest)
          = List.foldl (fun s q => collectStep s q.2) (collectStep init p.2) rest := rfl
      by_cases hp : p.2.passed = true
      · have hfail : failedResults (p :: rest) = failedResults rest := by
          simp [failedResults, List.filter_cons, hp]
        have hid : collectStep init p.2 = init := by
          simp [collectStep, hp]
        rw [hstep, hid, hfail]
        exact collect_foldl rest init
      · have hfail : failedResults (p :: rest) = p :: failedResults rest := by
          simp [failedResults, List.filter_cons, hp]
        obtain ⟨ih1, ih2, ih3⟩ := collect_foldl rest (collectStep init p.2)
        rw [hstep, hfail]
        refine ⟨?_, ?_, ?_⟩
        · rw [ih1]
          simp [collectStep, hp, Nat.add_assoc]
        · rw [ih2]
          simp [collectStep, hp, Bool.or_assoc]
        · rw [ih3]
          simp [collectStep, hp, List.append_assoc]

/-- C1 counterexample: a result with passed=True carrying an ERROR issue
is skipped by the Collect loop: the driver's total_issues stays 0 and its
has_errors stays false, while the claim's all-results issue sum is 1 and
its all-results OR of has_errors is true. -/
theorem collect_passed_counterexample :
    (collect exPassedWithIssue).total_issues = 0
    ∧ specTotalIssues exPassedWithIssue = 1
    ∧ (collect exPassedWithIssue).has_errors = false
    ∧ specHasErrors exPassedWithIssue = true :=
  ⟨rfl, rfl, rfl, rfl⟩

/-- C1 (amended): total_issues is the sum of the issue-list lengths over
the results with passed=False only, and the driver's has_errors flag is
the OR of has_errors over the results with passed=False only; results
with passed=True contribute neither issues nor errors. -/
theorem collect_totals_failed_only (results : List (String × CheckResult)) :
    (collect results).total_issues
        = ((failedResults results).map (fun p => p.2.issues.length)).sum
    ∧ (collect results).has_errors
        = (failedResults results).any (fun p => p.2.has_errors) := by
  obtain ⟨h1, h2, h3⟩ := collect_foldl results ⟨0, false, []⟩
  exact ⟨by simpa using h1, by simpa using h2⟩

/-- C2 counterexample: a fixable issue on a result with passed=True is
not collected by the driver, though the claim says every result's issues
are scanned. -/
theorem collect_fixable_passed_counterexample :
    (collect exPassedWithFix).fixable_issues = []
    ∧ specFixable exPassedWithFix = [issueWarnFix] :=
  ⟨rfl, rfl⟩

/-- C2 (amended): the collected fixable-issue list holds exactly the
Issues with a non-null proposed_fix drawn from the results with
passed=False, in mapping order of checks and, within a check, in issue
order; issues of passed=True results are never collected. -/
theorem collect_fixable_failed_only (results : List (String × CheckResult)) :
    (collect results).fixable_issues
        = (failedResults results).flatMap
            (fun p => p.2.issues.filter (fun i => i.proposed_fix.isSome)) := by
  obtain ⟨h1, h2, h3⟩ := collect_foldl results ⟨0, false, []⟩
  simpa using h3

/-- C9: whenever the driver's has_errors flag is set, total_issues > 0,
so the strict failure condition "total_issues > 0 or has_errors" is
equivalent to total_issues > 0 alone; a failed result with an empty issue
list sets neither quantity. -/
theorem has_errors_implies_total_pos (results : List (String × CheckResult)) :
    ((collect results).has_errors = true → 0 < (collect results).total_issues)
    ∧ ((0 < (collect results).total_issues ∨ (collect results).has_errors = true)
        ↔ 0 < (collect results).total_issues)
    ∧ (∀ (nm c : String) (d : Nat),
        collect [(nm, { check := c, passed := false, issues := [], duration := d })]
          = ⟨0, false, []⟩) := by
  have himp : (collect results).has_errors = true → 0 < (collect results).total_issues := by
    intro h
    obtain ⟨h1, h2⟩ := collect_totals_failed_only results
    rw [h2, List.any_eq_true] at h
    obtain ⟨p, hp, hperr⟩ := h
    have hlen : 0 < p.2.issues.length := by
      cases hi : p.2.issues with
      | nil =>
          simp [CheckResult.has_errors, hi] at hperr
      | cons i is => simp [hi]
    rw [h1]
    exact Nat.lt_of_lt_of_le hlen
      (List.single_le_sum (fun x _ => Nat.zero_le x) _
        (List.mem_map_of_mem (fun q => q.2.issues.length) hp))
  refine ⟨himp, ⟨fun h => h.elim id himp, Or.inl⟩, fun nm c d => rfl⟩

/-- C9 witness: an ERROR issue on a failed result indeed forces a
positive total. -/
theorem has_errors_implies_total_pos_witness :
    0 < (collect exErr).total_issues :=
  (has_errors_implies_total_pos exErr).1 (by decide)

/-! ### Bulk apply and exit decision -/

theorem applyAll_all_ok {ε : Type} (sem : Fix → Except ε Unit) :
    ∀ fl : List Fix, (∀ f ∈ fl, sem f = Except.ok ()) → applyAll sem fl = (fl, none)
  | [], _ => rfl
  | f :: rest, h => by
      simp [applyAll, h f (List.mem_cons_self f rest),
        applyAll_all_ok sem rest (fun g hg => h g (List.mem_cons_of_mem f hg))]

theorem applyAll_stops_at_error {ε : Type} (sem : Fix → Except ε Unit) :
    ∀ (pre : List Fix) (bad : Fix) (rest : List Fix) (e : ε),
      (∀ f ∈ pre, sem f = Except.ok ()) → sem bad = Except.error e →
      applyAll sem (pre ++ bad :: rest) = (pre ++ [bad], some e)
  | [], bad, rest, e, _, hbad => by simp [applyAll, hbad]
  | f :: pre, bad, rest, e, hpre, hbad => by
      simp [applyAll, hpre f (List.mem_cons_self f pre),
        applyAll_stops_at_error sem pre bad rest e
          (fun g hg => hpre g (List.mem_cons_of_mem f hg)) hbad]

theorem fixable_all_some (results : List (String × CheckResult)) :
    ∀ i ∈ (collect results).fixable_issues, i.proposed_fix.isSome := by
  intro i hi
  rw [collect_fixable_failed_only, List.mem_flatMap] at hi
  obtain ⟨p, hp, hip⟩ := hi
  exact (List.mem_filter.mp hip).2

theorem filterMap_length_of_isSome :
    ∀ l : List Issue, (∀ i ∈ l, i.proposed_fix.isSome) →
      (l.filterMap (fun i => i.proposed_fix)).length = l.length
  | [], _ => rfl
  | i :: rest, h => by
      obtain ⟨f, hf⟩ := Option.isSome_iff_exists.mp (h i (List.mem_cons_self i rest))
      simp [List.filterMap_cons, hf,
        filterMap_length_of_isSome rest (fun j hj => h j (List.mem_cons_of_mem i hj))]

theorem fixable_nonempty_total_pos (results : List (String × CheckResult))
    (h : (collect results).fixable_issues ≠ []) :
    0 < (collect results).total_issues := by
  obtain ⟨h1, h2⟩ := collect_totals_failed_only results
  rw [collect_fixable_failed_only] at h
  obtain ⟨i, hi⟩ := List.exists_mem_of_ne_nil _ h
  rw [List.mem_flatMap] at hi
  obtain ⟨p, hp, hip⟩ := hi
  have hlen : 0 < p.2.issues.length :=
    List.length_pos.mpr (List.ne_nil_of_mem (List.mem_filter.mp hip).1)
  rw [h1]
  exact Nat.lt_of_lt_of_le hlen
    (List.single_le_sum (fun x _ => Nat.zero_le x) _
      (List.mem_map_of_mem (fun q => q.2.issues.length) hp))

theorem checkDriver_skip {ε : Type} (sem : Fix → Except ε Unit)
    (results : List (String × CheckResult)) (fixFlag strict : Bool)
    (hc : ¬(0 < (collect results).total_issues
        ∧ (collect results).fixable_issues.filterMap (fun i => i.proposed_fix) ≠ []
        ∧ fixFlag = true)) :
    checkDriver sem results fixFlag strict
      = ([], Except.ok (if strict = true
            ∧ (0 < (collect results).total_issues ∨ (collect results).has_errors = true)
          then 1 else 0)) := by
  simp only [checkDriver]
  rw [if_neg hc]

theorem checkDriver_apply {ε : Type} (sem : Fix → Except ε Unit)
    (results : List (String × CheckResult)) (fixFlag strict : Bool)
    (hc : 0 < (collect results).total_issues
        ∧ (collect results).fixable_issues.filterMap (fun i => i.proposed_fix) ≠ []
        ∧ fixFlag = true) :
    checkDriver sem results fixFlag strict
      = ((applyAll sem
            ((collect results).fixable_issues.filterMap (fun i => i.proposed_fix))).1,
          match (applyAll sem
              ((collect results).fixable_issues.filterMap (fun i => i.proposed_fix))).2 with
          | some e => Except.error e
          | none => Except.ok (if strict = true
              ∧ (0 < (collect results).total_issues ∨ (collect results).has_errors = true)
            then 1 else 0)) := by
  simp only [checkDriver]
  rw [if_pos hc]
  cases happ : (applyAll sem
      ((collect results).fixable_issues.filterMap (fun i => i.proposed_fix))).2 <;>
    rfl

/-- C4: with every apply succeeding, the exit outcome of the check
command is failure (code 1) exactly when the strict flag is set and
(total_issues > 0 or has_errors), success (code 0) otherwise — for every
fix flag and apply semantics, so applying fixes in the same invocation
cannot change the decision, and WARNING/INFO-only issues still fail
strict mode through total_issues. -/
theorem strict_exit_decision {ε : Type} (sem : Fix → Except ε Unit)
    (results : List (String × CheckResult)) (fixFlag strict : Bool)
    (hok : ∀ f, sem f = Except.ok ()) :
    (checkDriver sem results fixFlag strict).2
      = Except.ok
          (if strict = true
              ∧ (0 < (collect results).total_issues
                  ∨ (collect results).has_errors = true)
            then 1 else 0) := by
  have happ : ∀ fl : List Fix, (applyAll sem fl).2 = none := by
    intro fl
    induction fl with
    | nil => rfl
    | cons f rest ih => simp [applyAll, hok f, ih]
  by_cases hc : 0 < (collect results).total_issues
      ∧ ((collect results).fixable_issues.filterMap (fun i => i.proposed_fix)) ≠ []
      ∧ fixFlag = true
  · rw [checkDriver_apply sem results fixFlag strict hc, happ]
  · rw [checkDriver_skip sem results fixFlag strict hc]

/-- C4 witness: strict mode with one WARNING-only issue (total_issues =
1, has_errors = false) exits with failure. -/
theorem strict_exit_decision_witness :
    (checkDriver (fun _ => (Except.ok () : Except Unit Unit)) exWarnOnly true true).2
      = Except.ok 1 := by
  have h := strict_exit_decision (fun _ => (Except.ok () : Except Unit Unit))
    exWarnOnly true true (fun f => rfl)
  rw [h, if_pos ⟨rfl, Or.inl (by decide)⟩]

/-- C5: in bulk-apply mode every collected fix's apply is invoked exactly
once, in collection order (N invocations for N collected fixable issues);
if one apply raises, the applies of the remaining fixes are not invoked
and the exception propagates with no rollback of the applied prefix. -/
theorem bulk_apply_behaviour {ε : Type} (sem : Fix → Except ε Unit)
    (results : List (String × CheckResult)) (strict : Bool) :
    ((∀ f ∈ (collect results).fixable_issues.filterMap (fun i => i.proposed_fix),
        sem f = Except.ok ()) →
      (checkDriver sem results true strict).1
          = (collect results).fixable_issues.filterMap (fun i => i.proposed_fix)
      ∧ ((collect results).fixable_issues.filterMap (fun i => i.proposed_fix)).length
          = (collect results).fixable_issues.length)
    ∧ (∀ (pre rest : List Fix) (bad : Fix) (e : ε),
        (collect results).fixable_issues.filterMap (fun i => i.proposed_fix)
            = pre ++ bad :: rest →
        (∀ f ∈ pre, sem f = Except.ok ()) →
        sem bad = Except.error e →
        checkDriver sem results true strict = (pre ++ [bad], Except.error e)) := by
  constructor
  · intro hok
    refine ⟨?_, filterMap_length_of_isSome _ (fixable_all_some results)⟩
    by_cases hfix : (collect results).fixable_issues.filterMap (fun i => i.proposed_fix) = []
    · rw [checkDriver_skip sem results true strict (fun hcon => hcon.2.1 hfix), hfix]
    · have htot : 0 < (collect results).total_issues := by
        refine fixable_nonempty_total_pos results (fun hnil => hfix ?_)
        rw [hnil]
        rfl
      rw [checkDriver_apply sem results true strict ⟨htot, hfix, rfl⟩,
        applyAll_all_ok sem _ hok]
  · intro pre rest bad e hdecomp hpre hbad
    have hfix : (collect results).fixable_issues.filterMap (fun i => i.proposed_fix) ≠ [] := by
      rw [hdecomp]
      simp
    have htot : 0 < (collect results).total_issues := by
      refine fixable_nonempty_total_pos results (fun hnil => hfix ?_)
      rw [hnil]
      rfl
    rw [checkDriver_apply sem results true strict ⟨htot, hfix, rfl⟩, hdecomp,
      applyAll_stops_at_error sem pre bad rest e hpre hbad]

/-- C5 witness: three collected fixes where the second apply raises: the
first two applies are invoked in order, the third is not, and the
exception propagates. -/
theorem bulk_apply_behaviour_witness :
    checkDriver semBoom exThreeFixes true false
      = ([fixNewline, fixSortDeps], Except.error "boom") := by
  have h := (bulk_apply_behaviour semBoom exThreeFixes false).2
    [fixNewline] [fixBumpPin] fixSortDeps "boom" rfl
    (fun f hf => by
      rw [List.mem_singleton] at hf
      subst hf
      rfl)
    rfl
  exact h

end Preen
